import Mathlib

/-!
Verification development for the nzb-touch scanning and verification engine.

The development shallowly embeds three parts of the Go source:

* the persistent queue (`Queue.add`, `Queue.markProcessed`,
  `Queue.getItemsDueForReprocessing`, `Queue.getProcessedToday`,
  `Queue.pruneOldItems`), modelled as an association list from file paths to
  rows, with timestamps as integers (seconds; one day is 86400);
* the verification engine `ProcessNZB`, modelled as a sequential run over the
  submitted fetch tasks: the random per-file index selection is an oracle
  (a list of draws), the network fetcher is an oracle mapping each segment to
  a success, failure or cancellation outcome, and the shared failure counter,
  the cancellation flag, and the first task error are explicit state;
* the directory scanner (`visitPath`, `checkForReprocessItems`,
  `scanDirectories`, `moveTarget`), with the filesystem walk given as the list
  of visited file paths; the quarantine model works on cleaned absolute path
  strings, with `strings.HasPrefix`, `filepath.Rel`, `filepath.Join` and
  `filepath.Base` embedded as string functions.
-/

/- ## Persistent queue (queue.go) -/

/-- One row of the `queue` table: `added`, `processed`, `processed_at`
(`none` models SQL NULL) and `process_count`. -/
structure QueueRow where
  added : Int
  processed : Bool
  processedAt : Option Int
  processCount : Nat
deriving DecidableEq, Repr

/-- The queue table, in insertion order; `file_path` is the key. -/
abbrev QueueState := List (String × QueueRow)

namespace Queue

/-- Models the `SELECT EXISTS(SELECT 1 FROM queue WHERE file_path = ?)` check. -/
def contains (q : QueueState) (p : String) : Bool :=
  match q with
  | [] => false
  | r :: rest => (r.1 == p) || contains rest p

/-- Row lookup by primary key (first matching row). -/
def lookup (q : QueueState) (p : String) : Option QueueRow :=
  match q with
  | [] => none
  | r :: rest => if r.1 == p then some r.2 else lookup rest p

/-- Models `Queue.Add`: inserts the path if new, with `added = now`,
`processed = false`, `processed_at` NULL, `process_count = 0`;
returns `true` exactly on insertion. -/
def add (q : QueueState) (p : String) (now : Int) : Bool × QueueState :=
  if contains q p then (false, q)
  else (true, q ++ [(p, ⟨now, false, none, 0⟩)])

/-- Models `Queue.MarkProcessed`: reads the current `process_count`, then
updates the row to `processed = 1`, `processed_at = now`,
`process_count = count + 1`; returns `true` iff a row was updated. -/
def markProcessed (q : QueueState) (p : String) (now : Int) : Bool × QueueState :=
  match lookup q p with
  | none => (false, q)
  | some row =>
    (true, q.map (fun r =>
      if r.1 == p then (r.1, ⟨r.2.added, true, some now, row.processCount + 1⟩) else r))

/-- Models `Queue.GetItemsDueForReprocessing`: empty for a non-positive
interval, else the rows with `processed = 1 AND processed_at < now - interval`. -/
def getItemsDueForReprocessing (q : QueueState) (reprocessInterval now : Int) :
    List (String × QueueRow) :=
  if reprocessInterval ≤ 0 then []
  else
    q.filter (fun r => r.2.processed &&
      (match r.2.processedAt with
       | some t => decide (t < now - reprocessInterval)
       | none => false))

/-- Models `Queue.GetProcessedToday`: `startOfDay := now.Truncate(24h)` (Go
truncates the absolute time to a multiple of 24 hours since the zero time),
and counts rows with `processed = 1 AND startOfDay <= processed_at < startOfDay + 24h`. -/
def getProcessedToday (q : QueueState) (now : Int) : Nat :=
  let startOfDay := now - now % 86400
  let endOfDay := startOfDay + 86400
  (q.filter (fun r => r.2.processed &&
    (match r.2.processedAt with
     | some t => decide (startOfDay ≤ t) && decide (t < endOfDay)
     | none => false))).length

/-- Follows the words of the spec, for comparison with `Queue.getProcessedToday`:
the count of items whose `processed_at` falls within the current local day
window, where truncation is to the local day boundary of a process whose UTC
offset is `tz`. -/
def specProcessedTodayLocal (q : QueueState) (now tz : Int) : Nat :=
  let localStart := (now + tz) - (now + tz) % 86400 - tz
  let localEnd := localStart + 86400
  (q.filter (fun r => r.2.processed &&
    (match r.2.processedAt with
     | some t => decide (localStart ≤ t) && decide (t < localEnd)
     | none => false))).length

/-- Count of processed rows whose `processed_at` lies in the day window
starting at `dayStart`; used to state the corrected form of the daily count. -/
def countProcessedWithin (q : QueueState) (dayStart : Int) : Nat :=
  (q.filter (fun r => r.2.processed &&
    (match r.2.processedAt with
     | some t => decide (dayStart ≤ t) && decide (t < dayStart + 86400)
     | none => false))).length

/-- Models `Queue.PruneOldItems`: deletes rows with
`processed = 1 AND processed_at < now - olderThan`; returns the number of
deleted rows and the remaining table. -/
def pruneOldItems (q : QueueState) (olderThan now : Int) : Nat × QueueState :=
  let keep := q.filter (fun r => !(r.2.processed &&
    (match r.2.processedAt with
     | some t => decide (t < now - olderThan)
     | none => false)))
  (q.length - keep.length, keep)

/-- A sequence of `Add` calls for one path, one per timestamp, returning the
list of results and the final table. -/
def addSeq (q : QueueState) (p : String) : List Int → List Bool × QueueState
  | [] => ([], q)
  | t :: ts =>
    let r := add q p t
    let rest := addSeq r.2 p ts
    (r.1 :: rest.1, rest.2)

/-- A sequence of `MarkProcessed` calls for one path, one per timestamp,
returning the list of results and the final table. -/
def markSeq (q : QueueState) (p : String) : List Int → List Bool × QueueState
  | [] => ([], q)
  | t :: ts =>
    let r := markProcessed q p t
    let rest := markSeq r.2 p ts
    (r.1 :: rest.1, rest.2)

end Queue

/- ## Verification engine (ProcessNZB) -/

/-- Outcome of one call of the external fetcher `Body`. -/
inductive FetchResult where
  | success (bytes : Nat)
  | canceled
  | failure
deriving DecidableEq, Repr

/-- One segment of a manifest file. -/
structure Segment where
  id : String
  bytes : Nat
deriving DecidableEq, Repr

/-- One file of a manifest. -/
structure NzbFile where
  filename : String
  bytes : Nat
  groups : List String
  segments : List Segment
deriving DecidableEq, Repr

/-- A manifest: an ordered list of files. -/
structure Nzb where
  files : List NzbFile
deriving DecidableEq, Repr

/-- Sum of segment counts over all files (`totalSegmentsInNZB`). -/
def totalSegments (nzb : Nzb) : Nat :=
  (nzb.files.map (fun f => f.segments.length)).sum

/-- Per-file sample size (`segmentsToCheck`): for `checkPercent < 100` it is
`total * checkPercent / 100`, bumped to 1 when that floor is 0; otherwise all
segments. -/
def segmentsToCheck (total checkPercent : Nat) : Nat :=
  if checkPercent < 100 then
    let s := total * checkPercent / 100
    if s = 0 then 1 else s
  else total

/-- The random selection loop: while fewer than `k` indices are selected, draw
the next index and insert it into the set. The draws are an oracle; `none`
means the given draw prefix was exhausted before `k` distinct indices were
collected. -/
def selectRandomIndices (k : Nat) : Finset Nat → List Nat → Option (Finset Nat)
  | acc, [] => if k ≤ acc.card then some acc else none
  | acc, d :: rest =>
    if k ≤ acc.card then some acc else selectRandomIndices k (insert d acc) rest

/-- Index selection for one file with `n` segments (`selectedIndices` in the
source): when the sample size is smaller than `n`, random indices are drawn
(`rand.Intn n`, modelled as draw `% n`) until the set has the sample size;
otherwise every index is selected. -/
def selectedIndices (n checkPercent : Nat) (draws : List Nat) : Option (Finset Nat) :=
  let k := segmentsToCheck n checkPercent
  if k < n then selectRandomIndices k ∅ (draws.map (fun d => d % n))
  else some (Finset.range n)

/-- State shared by the fetch tasks of one `ProcessNZB` run: the failure
counter, the cancellation flag of the inner context, and the first task error
(carrying the id of the reporting segment). -/
structure RunState where
  failed : Nat
  canceled : Bool
  firstErr : Option String
deriving DecidableEq, Repr

/-- The state at the start of a run. -/
def initialRunState : RunState := ⟨0, false, none⟩

/-- One fetch task: a task on a cancelled context observes cancellation and
returns no error; a cancellation result from the fetcher is absorbed; a
failure increments the counter and, when the post-increment count exceeds the
budget, cancels the run and reports the task error. -/
def runSegment (allowed : Nat) (segId : String) (res : FetchResult) (st : RunState) : RunState :=
  if st.canceled then st
  else
    match res with
    | .success _ => st
    | .canceled => st
    | .failure =>
      let f := st.failed + 1
      if allowed < f then { failed := f, canceled := true, firstErr := some segId }
      else { st with failed := f }

/-- The per-file segment loop: segment `i` is submitted iff `i` is in the
selected index set; `res` gives the fetcher outcome for each index. -/
def runSegments (allowed : Nat) (sel : Finset Nat) (res : Nat → FetchResult) :
    Nat → List Segment → RunState → RunState
  | _, [], st => st
  | i, seg :: rest, st =>
    runSegments allowed sel res (i + 1) rest
      (if i ∈ sel then runSegment allowed seg.id (res i) st else st)

/-- One file of a run. -/
def runFile (allowed : Nat) (file : NzbFile) (sel : Finset Nat) (res : Nat → FetchResult)
    (st : RunState) : RunState :=
  runSegments allowed sel res 0 file.segments st

/-- The file loop of a run; `sel i` and `res i` are the selection and fetch
outcomes of file number `i`. -/
def runFiles (allowed : Nat) (sel : Nat → Finset Nat) (res : Nat → Nat → FetchResult) :
    Nat → List NzbFile → RunState → RunState
  | _, [], st => st
  | i, f :: rest, st =>
    runFiles allowed sel res (i + 1) rest (runFile allowed f (sel i) (res i) st)

/-- A whole `ProcessNZB` run: the budget is
`totalSegments * missingPercent / 100` and the files are processed in order
from the initial state. The per-file random selection is the oracle `sel`. -/
def runNZB (nzb : Nzb) (missingPercent : Nat) (sel : Nat → Finset Nat)
    (res : Nat → Nat → FetchResult) : RunState :=
  runFiles (totalSegments nzb * missingPercent / 100) sel res 0 nzb.files initialRunState

/-- The error returned by `ProcessNZB`: the deferred `err = workerPool.Wait()`
overwrites the function result with the first task error of the pool, so the
call fails exactly when some task returned a `SegmentError`. -/
def processNZBError (nzb : Nzb) (missingPercent : Nat) (sel : Nat → Finset Nat)
    (res : Nat → Nat → FetchResult) : Option String :=
  (runNZB nzb missingPercent sel res).firstErr

/-- Number of fetch tasks submitted for one file: the selected indices among
its segments. -/
def countSelected (sel : Finset Nat) : Nat → List Segment → Nat
  | _, [] => 0
  | i, _ :: rest => (if i ∈ sel then 1 else 0) + countSelected sel (i + 1) rest

/-- Number of fetch tasks submitted for the whole manifest. -/
def submittedTasks (sel : Nat → Finset Nat) : Nat → List NzbFile → Nat
  | _, [] => 0
  | i, f :: rest => countSelected (sel i) 0 f.segments + submittedTasks sel (i + 1) rest

/-- The final failure rate: guarded so that a manifest with zero segments
yields 0 instead of a division by zero. -/
def failureRate (failed total : Nat) : Rat :=
  if 0 < total then ((failed : Rat) * 100) / (total : Rat) else 0

/-- Invariant of a run state: either no task has errored, the inner context is
not cancelled and the counter is within the budget; or some task has errored,
the inner context is cancelled and the counter exceeds the budget. -/
def RunInv (allowed : Nat) (st : RunState) : Prop :=
  (st.firstErr = none ∧ st.canceled = false ∧ st.failed ≤ allowed) ∨
  (st.firstErr ≠ none ∧ st.canceled = true ∧ allowed < st.failed)

/- ## Directory scanner (scanner.go) -/

/-- Case-insensitive `.nzb` extension filter
(`strings.EqualFold(filepath.Ext(path), ".nzb")`): `filepath.Ext` takes the
suffix from the final dot, and folding it against ".nzb" holds exactly when
the last four characters are `.` `n` `z` `b` with the letters
case-insensitive (none of `n`, `z`, `b` can be the final dot). -/
def isNzbExt (path : String) : Bool :=
  match path.data.reverse with
  | b :: z :: n :: dot :: _ =>
    dot == '.' && n.toLower == 'n' && z.toLower == 'z' && b.toLower == 'b'
  | _ => false

/-- Scanner state during one scan: the queue table, the worker channel content,
and the paths sent to the channel during this scan. -/
structure ScanState where
  queue : QueueState
  channel : List String
  sent : List String
deriving DecidableEq, Repr

/-- The per-entry walk callback of `scanDirectories`: skip non-nzb paths and
paths already in the queue; otherwise add the path and, when under the daily
budget, try a non-blocking send onto the bounded worker channel (capacity
`cap`); a full channel drops the send. -/
def visitPath (cap maxFilesPerDay : Nat) (now : Int) (st : ScanState) (path : String) :
    ScanState :=
  if !(isNzbExt path) then st
  else if Queue.contains st.queue path then st
  else
    let r := Queue.add st.queue path now
    if r.1 then
      if Queue.getProcessedToday r.2 now < maxFilesPerDay then
        if st.channel.length < cap then
          { queue := r.2, channel := st.channel ++ [path], sent := st.sent ++ [path] }
        else { st with queue := r.2 }
      else { st with queue := r.2 }
    else { st with queue := r.2 }

/-- The enqueue loop of `checkForReprocessItems`: skip items whose file no
longer exists; stop at the first full-channel send. -/
def enqueueReprocess (cap : Nat) (fileExists : String → Bool) (st : ScanState) :
    List (String × QueueRow) → ScanState
  | [] => st
  | item :: rest =>
    if !(fileExists item.1) then enqueueReprocess cap fileExists st rest
    else if st.channel.length < cap then
      enqueueReprocess cap fileExists
        { st with channel := st.channel ++ [item.1], sent := st.sent ++ [item.1] } rest
    else st

/-- Models `checkForReprocessItems`: fetch the due items, stop when there are
none or the daily budget is exhausted, clip the list to the remaining budget,
then enqueue. -/
def checkForReprocessItems (cap maxFilesPerDay : Nat) (reprocessInterval now : Int)
    (fileExists : String → Bool) (st : ScanState) : ScanState :=
  let items := Queue.getItemsDueForReprocessing st.queue reprocessInterval now
  if items.isEmpty then st
  else
    let slots : Int := (maxFilesPerDay : Int) - (Queue.getProcessedToday st.queue now : Int)
    if slots ≤ 0 then st
    else enqueueReprocess cap fileExists st (items.take slots.toNat)

/-- Models `scanDirectories`: walk the watch roots (the walk is given as the
list of visited file paths), then reprocess when enabled, then prune rows
processed more than 30 days ago. -/
def scanDirectories (walkPaths : List String) (cap maxFilesPerDay : Nat)
    (reprocessInterval now : Int) (fileExists : String → Bool) (st : ScanState) : ScanState :=
  let st1 := walkPaths.foldl (visitPath cap maxFilesPerDay now) st
  let st2 :=
    if 0 < reprocessInterval then
      checkForReprocessItems cap maxFilesPerDay reprocessInterval now fileExists st1
    else st1
  { st2 with queue := (Queue.pruneOldItems st2.queue (30 * 86400) now).2 }

/- ## Quarantine move (moveToFailedDirectory) -/

/-- Unfolding of one step of `addSeq`. -/
theorem Queue.addSeq_cons (q : QueueState) (p : String) (t : Int) (ts : List Int) :
    Queue.addSeq q p (t :: ts) =
      ((Queue.add q p t).1 :: (Queue.addSeq (Queue.add q p t).2 p ts).1,
       (Queue.addSeq (Queue.add q p t).2 p ts).2) := rfl

/-- Unfolding of one step of `markSeq`. -/
theorem Queue.markSeq_cons (q : QueueState) (p : String) (t : Int) (ts : List Int) :
    Queue.markSeq q p (t :: ts) =
      ((Queue.markProcessed q p t).1 ::
         (Queue.markSeq (Queue.markProcessed q p t).2 p ts).1,
       (Queue.markSeq (Queue.markProcessed q p t).2 p ts).2) := rfl

/-- The existence check agrees with row lookup. -/
theorem Queue.contains_eq_isSome (q : QueueState) (p : String) :
    Queue.contains q p = (Queue.lookup q p).isSome := by
  induction q with
  | nil => rfl
  | cons r q ih =>
    by_cases h : (r.1 == p) = true
    · simp [Queue.contains, Queue.lookup, h]
    · simp [Queue.contains, Queue.lookup, h, ih]

/-- A path appended to a table that does not contain it is found afterwards. -/
theorem Queue.lookup_append_self (q : QueueState) (p : String) (row : QueueRow)
    (h : Queue.contains q p = false) :
    Queue.lookup (q ++ [(p, row)]) p = some row := by
  induction q with
  | nil => simp [Queue.lookup]
  | cons r q ih =>
    have h1 : (r.1 == p) = false ∧ Queue.contains q p = false := by
      simpa [Queue.contains, Bool.or_eq_false_iff] using h
    simp [Queue.lookup, h1.1, ih h1.2]

/-- The appended path is reported as present. -/
theorem Queue.contains_append_self (q : QueueState) (p : String) (row : QueueRow) :
    Queue.contains (q ++ [(p, row)]) p = true := by
  induction q with
  | nil => simp [Queue.contains]
  | cons r q ih => simp [Queue.contains, ih]

/-- Every `Add` call on a table already containing the path returns `false`
and leaves the table unchanged. -/
theorem Queue.addSeq_of_contains (p : String) :
    ∀ (ts : List Int) (q : QueueState), Queue.contains q p = true →
      Queue.addSeq q p ts = (ts.map (fun _ => false), q)
  | [], q, _ => rfl
  | t :: ts, q, h => by
    have hadd : Queue.add q p t = (false, q) := by
      unfold Queue.add; rw [if_pos h]
    rw [Queue.addSeq_cons, hadd]
    simp [Queue.addSeq_of_contains p ts q h]

/-- C7: for any sequence of `Add(p)` calls on a queue that does not yet
contain `p`, exactly the first call returns `true` and every later call
returns `false`; the successful insertion stores the row with
`added_at = now`, `processed = false`, `processed_at` NULL and
`process_count = 0`. -/
theorem add_dedup (q : QueueState) (p : String) (t : Int) (ts : List Int)
    (h : Queue.contains q p = false) :
    (Queue.addSeq q p (t :: ts)).1 = true :: ts.map (fun _ => false) ∧
    Queue.lookup (Queue.addSeq q p (t :: ts)).2 p = some ⟨t, false, none, 0⟩ := by
  obtain ⟨q1, hadd, hc, hl⟩ :
      ∃ q1, Queue.add q p t = (true, q1) ∧ Queue.contains q1 p = true ∧
        Queue.lookup q1 p = some ⟨t, false, none, 0⟩ := by
    refine ⟨q ++ [(p, ⟨t, false, none, 0⟩)], ?_, Queue.contains_append_self q p _,
      Queue.lookup_append_self q p _ h⟩
    unfold Queue.add; rw [if_neg (by simp [h])]
  have h1s : (Queue.addSeq q p (t :: ts)).1 = true :: (Queue.addSeq q1 p ts).1 := by
    rw [Queue.addSeq_cons, hadd]
  have h2s : (Queue.addSeq q p (t :: ts)).2 = (Queue.addSeq q1 p ts).2 := by
    rw [Queue.addSeq_cons, hadd]
  have hrest := Queue.addSeq_of_contains p ts q1 hc
  refine ⟨?_, ?_⟩
  · rw [h1s, hrest]
  · rw [h2s, hrest]; exact hl

/-- Witness for C7 at a concrete input. -/
theorem add_dedup_witness :
    (Queue.addSeq [] "a" [0, 1, 2]).1 = true :: [(1 : Int), 2].map (fun _ => false) ∧
    Queue.lookup (Queue.addSeq [] "a" [0, 1, 2]).2 "a" = some ⟨0, false, none, 0⟩ :=
  add_dedup [] "a" 0 [1, 2] (by rfl)

/-- Lookup after the `UPDATE ... WHERE file_path = p` row map. -/
theorem Queue.lookup_map_update (q : QueueState) (p : String) (row : QueueRow) (t : Int)
    (c : Nat) (h : Queue.lookup q p = some row) :
    Queue.lookup
      (q.map (fun r => if r.1 == p then (r.1, ⟨r.2.added, true, some t, c⟩) else r)) p
      = some ⟨row.added, true, some t, c⟩ := by
  induction q with
  | nil => simp [Queue.lookup] at h
  | cons r q ih =>
    by_cases hr : (r.1 == p) = true
    · have hrow : row = r.2 := by
        rw [Queue.lookup, if_pos hr] at h
        exact (Option.some_inj.mp h).symm
      subst hrow
      simp [Queue.lookup, hr]
    · rw [Queue.lookup, if_neg (by simp [hr])] at h
      simp only [List.map_cons, hr, Bool.false_eq_true, if_false]
      rw [Queue.lookup, if_neg (by simp [hr])]
      exact ih h

/-- The default value of `getLastD` is irrelevant for a non-empty list. -/
theorem getLastD_of_ne_nil {α : Type} (l : List α) (h : l ≠ []) (a b : α) :
    l.getLastD a = l.getLastD b := by
  cases l with
  | nil => exact absurd rfl h
  | cons x xs => rfl

/-- Running a non-empty sequence of `MarkProcessed(p)` calls: every call
returns `true`, and the final row keeps `added`, has `processed = true`,
`processed_at` equal to the last call time, and `process_count` increased by
the number of calls. -/
theorem Queue.markSeq_spec :
    ∀ (ts : List Int) (q : QueueState) (p : String) (a : Int) (pr : Bool)
      (pa : Option Int) (c : Nat),
      ts ≠ [] → Queue.lookup q p = some ⟨a, pr, pa, c⟩ →
      (Queue.markSeq q p ts).1 = ts.map (fun _ => true) ∧
      Queue.lookup (Queue.markSeq q p ts).2 p =
        some ⟨a, true, some (ts.getLastD 0), c + ts.length⟩
  | [], _, _, _, _, _, _, hne, _ => absurd rfl hne
  | t :: ts, q, p, a, pr, pa, c, _, hq => by
    obtain ⟨q1, hmark, hlook⟩ :
        ∃ q1, Queue.markProcessed q p t = (true, q1) ∧
          Queue.lookup q1 p = some ⟨a, true, some t, c + 1⟩ := by
      refine ⟨q.map (fun r => if r.1 == p then (r.1, ⟨r.2.added, true, some t, c + 1⟩) else r),
        ?_, ?_⟩
      · unfold Queue.markProcessed; rw [hq]
      · simpa using Queue.lookup_map_update q p ⟨a, pr, pa, c⟩ t (c + 1) hq
    have h1s : (Queue.markSeq q p (t :: ts)).1 = true :: (Queue.markSeq q1 p ts).1 := by
      rw [Queue.markSeq_cons, hmark]
    have h2s : (Queue.markSeq q p (t :: ts)).2 = (Queue.markSeq q1 p ts).2 := by
      rw [Queue.markSeq_cons, hmark]
    cases hts : ts with
    | nil =>
      subst hts
      refine ⟨by rw [h1s]; rfl, ?_⟩
      rw [h2s]
      simpa [Queue.markSeq] using hlook
    | cons t2 ts2 =>
      obtain ⟨ih1, ih2⟩ :=
        Queue.markSeq_spec (t2 :: ts2) q1 p a true (some t) (c + 1) (by simp) hlook
      subst hts
      refine ⟨by rw [h1s, ih1]; rfl, ?_⟩
      rw [h2s, ih2]
      have hlast : (t2 :: ts2).getLastD 0 = (t :: t2 :: ts2).getLastD 0 :=
        getLastD_of_ne_nil (t2 :: ts2) (by simp) 0 t
      have hcount : c + 1 + (t2 :: ts2).length = c + (t :: t2 :: ts2).length := by
        simp [List.length_cons]; omega
      rw [hlast, hcount]

/-- C8: for a path `p` present in the queue with a fresh row
(`process_count = 0`, as stored by `Add`), after `k` successful
`MarkProcessed(p)` calls the row has `process_count = k`, `processed = true`
and `processed_at` equal to the time of the last call, and every call
returned `true`; moreover `MarkProcessed` returns `true` iff a row was
updated, i.e. iff the path is present. -/
theorem markProcessed_count (q : QueueState) (p : String) (row : QueueRow) (ts : List Int)
    (hq : Queue.lookup q p = some row) (h0 : row.processCount = 0) (hne : ts ≠ []) :
    (Queue.markSeq q p ts).1 = ts.map (fun _ => true) ∧
    Queue.lookup (Queue.markSeq q p ts).2 p =
      some ⟨row.added, true, some (ts.getLastD 0), ts.length⟩ ∧
    ∀ (q₀ : QueueState) (t₀ : Int), (Queue.markProcessed q₀ p t₀).1 = Queue.contains q₀ p := by
  obtain ⟨a, pr, pa, c⟩ := row
  simp only at h0
  subst h0
  obtain ⟨h1, h2⟩ := Queue.markSeq_spec ts q p a pr pa 0 hne hq
  refine ⟨h1, by simpa using h2, ?_⟩
  intro q₀ t₀
  rw [Queue.contains_eq_isSome]
  unfold Queue.markProcessed
  cases Queue.lookup q₀ p <;> rfl

/-- Witness for C8 at a concrete input. -/
theorem markProcessed_count_witness :
    (Queue.markSeq [("a", ⟨0, false, none, 0⟩)] "a" [3, 5]).1 =
      [(3 : Int), 5].map (fun _ => true) ∧
    Queue.lookup (Queue.markSeq [("a", ⟨0, false, none, 0⟩)] "a" [3, 5]).2 "a" =
      some ⟨0, true, some ([(3 : Int), 5].getLastD 0), [(3 : Int), 5].length⟩ ∧
    ∀ (q₀ : QueueState) (t₀ : Int),
      (Queue.markProcessed q₀ "a" t₀).1 = Queue.contains q₀ "a" :=
  markProcessed_count [("a", ⟨0, false, none, 0⟩)] "a" ⟨0, false, none, 0⟩ [3, 5]
    (by rfl) rfl (by simp)

/-- C6 (corrected): an item with `processed = true` and `processed_at = T`
appears in `GetItemsDueForReprocessing(d)` iff `d > 0` and `now - T > d`
strictly (the SQL comparison `processed_at < now - interval` is strict); for
`d ≤ 0` the result is empty. -/
theorem reprocess_window_strict (q : QueueState) (d now T : Int) (p : String)
    (row : QueueRow) (hmem : (p, row) ∈ q) (hp : row.processed = true)
    (hT : row.processedAt = some T) :
    ((p, row) ∈ Queue.getItemsDueForReprocessing q d now) ↔ (0 < d ∧ T < now - d) := by
  unfold Queue.getItemsDueForReprocessing
  by_cases hd : d ≤ 0
  · rw [if_pos hd]
    simp only [List.not_mem_nil, false_iff]
    omega
  · rw [if_neg hd, List.mem_filter]
    simp only [hmem, true_and, hp, hT, Bool.true_and, decide_eq_true_eq]
    omega

/-- Witness for C6 at a concrete input. -/
theorem reprocess_window_witness :
    ("p", (⟨0, true, some 3, 1⟩ : QueueRow)) ∈
      Queue.getItemsDueForReprocessing [("p", ⟨0, true, some 3, 1⟩)] 2 10 :=
  (reprocess_window_strict [("p", ⟨0, true, some 3, 1⟩)] 2 10 3 "p" ⟨0, true, some 3, 1⟩
    (by simp) rfl rfl).mpr (by decide)

/-- C6 counterexample to the claim as stated: with `processed_at = 5`,
`now = 10` and `d = 5` we have `now - T ≥ d`, so the claim predicts the item
appears, but the strict SQL comparison excludes it. -/
theorem reprocess_window_counterexample :
    ¬ ((("p", (⟨0, true, some 5, 1⟩ : QueueRow)) ∈
        Queue.getItemsDueForReprocessing [("p", ⟨0, true, some 5, 1⟩)] 5 10) ↔
      (0 < (5 : Int) ∧ (5 : Int) ≤ 10 - 5)) := by decide

/- ## Helper lemmas for the verification engine -/

/-- Unfolding of one step of `runSegments`. -/
theorem runSegments_cons (allowed : Nat) (sel : Finset Nat) (res : Nat → FetchResult)
    (i : Nat) (seg : Segment) (rest : List Segment) (st : RunState) :
    runSegments allowed sel res i (seg :: rest) st =
      runSegments allowed sel res (i + 1) rest
        (if i ∈ sel then runSegment allowed seg.id (res i) st else st) := rfl

/-- Unfolding of one step of `runFiles`. -/
theorem runFiles_cons (allowed : Nat) (sel : Nat → Finset Nat) (res : Nat → Nat → FetchResult)
    (i : Nat) (f : NzbFile) (rest : List NzbFile) (st : RunState) :
    runFiles allowed sel res i (f :: rest) st =
      runFiles allowed sel res (i + 1) rest (runFile allowed f (sel i) (res i) st) := rfl

/-- Unfolding of one step of `submittedTasks`. -/
theorem submittedTasks_cons (sel : Nat → Finset Nat) (i : Nat) (f : NzbFile)
    (rest : List NzbFile) :
    submittedTasks sel i (f :: rest) =
      countSelected (sel i) 0 f.segments + submittedTasks sel (i + 1) rest := rfl

/-- One fetch task preserves the run invariant. -/
theorem runSegment_inv (allowed : Nat) (segId : String) (res : FetchResult) (st : RunState)
    (h : RunInv allowed st) : RunInv allowed (runSegment allowed segId res st) := by
  by_cases hc : st.canceled = true
  · simpa [runSegment, hc] using h
  · have hcf : st.canceled = false := by simpa using hc
    cases res with
    | success b => simpa [runSegment, hcf] using h
    | canceled => simpa [runSegment, hcf] using h
    | failure =>
      have hres : runSegment allowed segId .failure st =
          if allowed < st.failed + 1 then ⟨st.failed + 1, true, some segId⟩
          else ⟨st.failed + 1, st.canceled, st.firstErr⟩ := by
        simp [runSegment, hcf]
      rw [hres]
      rcases h with ⟨he, _, hle⟩ | ⟨_, hct, _⟩
      · by_cases hgt : allowed < st.failed + 1
        · rw [if_pos hgt]; right; exact ⟨by simp, rfl, hgt⟩
        · rw [if_neg hgt]; left
          exact ⟨he, hcf, by show st.failed + 1 ≤ allowed; omega⟩
      · exact absurd hct (by simp [hcf])

/-- The per-file segment loop preserves the run invariant. -/
theorem runSegments_inv (allowed : Nat) (sel : Finset Nat) (res : Nat → FetchResult) :
    ∀ (segs : List Segment) (i : Nat) (st : RunState), RunInv allowed st →
      RunInv allowed (runSegments allowed sel res i segs st)
  | [], _, _, h => h
  | seg :: rest, i, st, h => by
    rw [runSegments_cons]
    apply runSegments_inv allowed sel res rest (i + 1)
    by_cases hi : i ∈ sel
    · rw [if_pos hi]; exact runSegment_inv _ _ _ _ h
    · rw [if_neg hi]; exact h

/-- The file loop preserves the run invariant. -/
theorem runFiles_inv (allowed : Nat) (sel : Nat → Finset Nat) (res : Nat → Nat → FetchResult) :
    ∀ (files : List NzbFile) (i : Nat) (st : RunState), RunInv allowed st →
      RunInv allowed (runFiles allowed sel res i files st)
  | [], _, _, h => h
  | f :: rest, i, st, h => by
    rw [runFiles_cons]
    exact runFiles_inv allowed sel res rest (i + 1) _
      (runSegments_inv allowed (sel i) (res i) f.segments 0 st h)

/-- The final state of a whole run satisfies the invariant. -/
theorem runNZB_inv (nzb : Nzb) (missingPercent : Nat) (sel : Nat → Finset Nat)
    (res : Nat → Nat → FetchResult) :
    RunInv (totalSegments nzb * missingPercent / 100) (runNZB nzb missingPercent sel res) :=
  runFiles_inv _ sel res nzb.files 0 initialRunState (Or.inl ⟨rfl, rfl, Nat.zero_le _⟩)

/-- C1: in the absence of external cancellation, `ProcessNZB` (the `Verify`
entry point) returns an error if and only if the total number of failed
fetches across all files exceeds
`totalSegments * missingPercent / 100` (floor); otherwise it returns
success. The per-file selection `sel` is the oracle for the random sampling
driven by `checkPercent`, and `res` is the fetcher oracle. -/
theorem verify_error_iff_budget_exceeded (nzb : Nzb) (missingPercent : Nat)
    (sel : Nat → Finset Nat) (res : Nat → Nat → FetchResult) :
    (processNZBError nzb missingPercent sel res).isSome = true ↔
      totalSegments nzb * missingPercent / 100 <
        (runNZB nzb missingPercent sel res).failed := by
  have h := runNZB_inv nzb missingPercent sel res
  unfold processNZBError
  rcases h with ⟨he, _, hle⟩ | ⟨hne, _, hgt⟩
  · rw [he]
    simp only [Option.isSome_none, Bool.false_eq_true, false_iff]
    omega
  · simp only [Option.isSome_iff_ne_none]
    exact ⟨fun _ => hgt, fun _ => hne⟩

/-- C9: a fetch task whose fetcher call returns the cancellation error
returns no error and performs no state update at all; in particular the
failure counter is not incremented and cancellation never counts toward the
missing-segment budget. -/
theorem cancellation_absorbed (allowed : Nat) (segId : String) (st : RunState) :
    runSegment allowed segId FetchResult.canceled st = st := by
  unfold runSegment
  by_cases hc : st.canceled = true
  · rw [if_pos hc]
  · rw [if_neg hc]

/-- With every file of the list empty, the file loop leaves the state alone. -/
theorem runFiles_all_empty (allowed : Nat) (sel : Nat → Finset Nat)
    (res : Nat → Nat → FetchResult) :
    ∀ (files : List NzbFile) (i : Nat) (st : RunState),
      (∀ f ∈ files, f.segments = []) → runFiles allowed sel res i files st = st
  | [], _, _, _ => rfl
  | f :: rest, i, st, h => by
    rw [runFiles_cons]
    have hfile : runFile allowed f (sel i) (res i) st = st := by
      unfold runFile; rw [h f (by simp)]; rfl
    rw [hfile]
    exact runFiles_all_empty allowed sel res rest (i + 1) st
      (fun g hg => h g (List.mem_cons_of_mem _ hg))

/-- With every file of the list empty, no fetch task is submitted. -/
theorem submittedTasks_all_empty (sel : Nat → Finset Nat) :
    ∀ (files : List NzbFile) (i : Nat),
      (∀ f ∈ files, f.segments = []) → submittedTasks sel i files = 0
  | [], _, _ => rfl
  | f :: rest, i, h => by
    rw [submittedTasks_cons, h f (by simp)]
    have hrest := submittedTasks_all_empty sel rest (i + 1)
      (fun g hg => h g (List.mem_cons_of_mem _ hg))
    simpa [countSelected] using hrest

/-- C10: for a manifest whose total segment count is zero, `ProcessNZB`
submits no fetch tasks and returns success; the failure counter stays at
zero, the budget check `0 > 0` never fails, and the final failure-rate
computation is guarded so no division by zero occurs (the rate is 0). -/
theorem empty_manifest_success (nzb : Nzb) (missingPercent : Nat)
    (sel : Nat → Finset Nat) (res : Nat → Nat → FetchResult)
    (h : totalSegments nzb = 0) :
    submittedTasks sel 0 nzb.files = 0 ∧
    processNZBError nzb missingPercent sel res = none ∧
    (runNZB nzb missingPercent sel res).failed = 0 ∧
    failureRate (runNZB nzb missingPercent sel res).failed (totalSegments nzb) = 0 := by
  have hempty : ∀ f ∈ nzb.files, f.segments = [] := by
    intro f hf
    have hmem : f.segments.length ∈ nzb.files.map (fun g => g.segments.length) :=
      List.mem_map_of_mem _ hf
    have hlen : f.segments.length = 0 := by
      have hsum : (nzb.files.map (fun g => g.segments.length)).sum = 0 := h
      exact List.sum_eq_zero_iff.mp hsum _ hmem
    exact List.eq_nil_of_length_eq_zero hlen
  have hrun : runNZB nzb missingPercent sel res = initialRunState := by
    unfold runNZB
    exact runFiles_all_empty _ sel res nzb.files 0 initialRunState hempty
  refine ⟨submittedTasks_all_empty sel nzb.files 0 hempty, ?_, ?_, ?_⟩
  · unfold processNZBError; rw [hrun]; rfl
  · rw [hrun]; rfl
  · rw [hrun, h]
    simp [failureRate, initialRunState]

/-- Witness for C10 at a concrete manifest with one file and no segments. -/
theorem empty_manifest_success_witness :
    submittedTasks (fun _ => ∅) 0 [⟨"a", 0, [], []⟩] = 0 ∧
    processNZBError ⟨[⟨"a", 0, [], []⟩]⟩ 0 (fun _ => ∅) (fun _ _ => FetchResult.failure) = none ∧
    (runNZB ⟨[⟨"a", 0, [], []⟩]⟩ 0 (fun _ => ∅) (fun _ _ => FetchResult.failure)).failed = 0 ∧
    failureRate
      (runNZB ⟨[⟨"a", 0, [], []⟩]⟩ 0 (fun _ => ∅) (fun _ _ => FetchResult.failure)).failed
      (totalSegments ⟨[⟨"a", 0, [], []⟩]⟩) = 0 :=
  empty_manifest_success ⟨[⟨"a", 0, [], []⟩]⟩ 0 (fun _ => ∅) (fun _ _ => FetchResult.failure)
    (by rfl)

/- ## Helper lemmas for the index selection -/

/-- Unfolding of the selection loop at the end of the draws. -/
theorem selectRandomIndices_nil (k : Nat) (acc : Finset Nat) :
    selectRandomIndices k acc [] = if k ≤ acc.card then some acc else none := rfl

/-- Unfolding of one step of the selection loop. -/
theorem selectRandomIndices_cons (k : Nat) (acc : Finset Nat) (d : Nat) (rest : List Nat) :
    selectRandomIndices k acc (d :: rest) =
      if k ≤ acc.card then some acc else selectRandomIndices k (insert d acc) rest := rfl

/-- Upon termination the selection loop has collected exactly `k` indices. -/
theorem selectRandomIndices_card :
    ∀ (draws : List Nat) (k : Nat) (acc s : Finset Nat), acc.card ≤ k →
      selectRandomIndices k acc draws = some s → s.card = k
  | [], k, acc, s, hle, h => by
    rw [selectRandomIndices_nil] at h
    by_cases hk : k ≤ acc.card
    · rw [if_pos hk] at h; cases h; omega
    · rw [if_neg hk] at h; cases h
  | d :: rest, k, acc, s, hle, h => by
    rw [selectRandomIndices_cons] at h
    by_cases hk : k ≤ acc.card
    · rw [if_pos hk] at h; cases h; omega
    · rw [if_neg hk] at h
      exact selectRandomIndices_card rest k (insert d acc) s
        (by have := Finset.card_insert_le d acc; omega) h

/-- Every selected index comes from the accumulator or from a draw. -/
theorem selectRandomIndices_mem :
    ∀ (draws : List Nat) (k : Nat) (acc s : Finset Nat),
      selectRandomIndices k acc draws = some s → ∀ x ∈ s, x ∈ acc ∨ x ∈ draws
  | [], k, acc, s, h, x, hx => by
    rw [selectRandomIndices_nil] at h
    by_cases hk : k ≤ acc.card
    · rw [if_pos hk] at h; cases h; exact Or.inl hx
    · rw [if_neg hk] at h; cases h
  | d :: rest, k, acc, s, h, x, hx => by
    rw [selectRandomIndices_cons] at h
    by_cases hk : k ≤ acc.card
    · rw [if_pos hk] at h; cases h; exact Or.inl hx
    · rw [if_neg hk] at h
      rcases selectRandomIndices_mem rest k (insert d acc) s h x hx with hacc | hrest
      · rcases Finset.mem_insert.mp hacc with hxd | hxa
        · exact Or.inr (by simp [hxd])
        · exact Or.inl hxa
      · exact Or.inr (List.mem_cons_of_mem _ hrest)

/-- For `checkPercent < 100` the sample size is `max 1 (n * c / 100)`. -/
theorem segmentsToCheck_eq_max (n c : Nat) (hc : c < 100) :
    segmentsToCheck n c = max 1 (n * c / 100) := by
  unfold segmentsToCheck
  rw [if_pos hc]
  by_cases h0 : n * c / 100 = 0
  · simp [h0]
  · simp only [h0, if_false]
    rw [max_eq_right (by omega)]

/-- For a non-empty file and `checkPercent < 100`, the sample size never
exceeds the segment count. -/
theorem segmentsToCheck_le (n c : Nat) (hn : 1 ≤ n) (hc : c < 100) :
    segmentsToCheck n c ≤ n := by
  rw [segmentsToCheck_eq_max n c hc]
  have hdiv : n * c / 100 < n := by
    rw [Nat.div_lt_iff_lt_mul (by norm_num : (0 : Nat) < 100)]
    have hmul : n * c ≤ n * 99 := Nat.mul_le_mul_left n (by omega)
    omega
  exact max_le hn (by omega)

/-- C2 (amended: the file must have `n ≥ 1` segments): whenever the selection
loop terminates, the number of distinct selected indices equals
`max 1 (n * c / 100)` for `c < 100` and `n` for `c = 100` (and any `c ≥ 100`),
and every selected index is a valid position below `n`. Distinctness is
inherent: the selection is a set. -/
theorem sampling_size (n c : Nat) (draws : List Nat) (s : Finset Nat) (hn : 1 ≤ n)
    (hsel : selectedIndices n c draws = some s) :
    s.card = (if c < 100 then max 1 (n * c / 100) else n) ∧ ∀ i ∈ s, i < n := by
  have hsel2 :
      (if segmentsToCheck n c < n then
        selectRandomIndices (segmentsToCheck n c) ∅ (draws.map (fun d => d % n))
      else some (Finset.range n)) = some s := hsel
  by_cases hlt : segmentsToCheck n c < n
  · rw [if_pos hlt] at hsel2
    constructor
    · have hcard := selectRandomIndices_card (draws.map (fun d => d % n))
        (segmentsToCheck n c) ∅ s (by simp) hsel2
      rw [hcard]
      by_cases hc : c < 100
      · rw [if_pos hc, segmentsToCheck_eq_max n c hc]
      · exfalso
        unfold segmentsToCheck at hlt
        rw [if_neg hc] at hlt
        omega
    · intro x hx
      rcases selectRandomIndices_mem _ _ _ _ hsel2 x hx with hacc | hmem
      · simp at hacc
      · obtain ⟨d, _, hd⟩ := List.mem_map.mp hmem
        rw [← hd]
        exact Nat.mod_lt d (by omega)
  · rw [if_neg hlt] at hsel2
    cases hsel2
    constructor
    · rw [Finset.card_range]
      by_cases hc : c < 100
      · rw [if_pos hc, ← segmentsToCheck_eq_max n c hc]
        have hle := segmentsToCheck_le n c hn hc
        omega
      · rw [if_neg hc]
    · intro i hi
      exact Finset.mem_range.mp hi

/-- C2 counterexample to the claim as stated: a file with `n = 0` segments and
`check_percent = 50` selects the empty index set (the all-indices branch of an
empty segment list), not `max(1, floor(0 * 50 / 100)) = 1` indices. -/
theorem sampling_size_counterexample :
    ∃ s : Finset Nat, selectedIndices 0 50 [] = some s ∧
      s.card ≠ max 1 (0 * 50 / 100) := by
  refine ⟨∅, by decide, by decide⟩

/-- Witness for C2 at a concrete input: 4 segments, 50 percent, two indices. -/
theorem sampling_size_witness :
    (1 ≤ 4) ∧
    ((insert 2 (insert 0 ∅) : Finset Nat).card =
        (if 50 < 100 then max 1 (4 * 50 / 100) else 4) ∧
      ∀ i ∈ (insert 2 (insert 0 ∅) : Finset Nat), i < 4) :=
  ⟨by decide, sampling_size 4 50 [0, 2, 1] (insert 2 (insert 0 ∅)) (by decide) (by rfl)⟩

/- ## Daily budget window (GetProcessedToday) -/

/-- C4 (amended): `GetProcessedToday` returns exactly the count of processed
items whose `processed_at` falls in the absolute day window
`[86400 * (now / 86400), 86400 * (now / 86400) + 86400)` — the UTC day, since
Go `Truncate(24h)` truncates the absolute time since the zero time —
independently of the local timezone of the process. -/
theorem processedToday_utc_window (q : QueueState) (now : Int) :
    Queue.getProcessedToday q now =
      Queue.countProcessedWithin q (86400 * (now / 86400)) := by
  have h : now - now % 86400 = 86400 * (now / 86400) := by omega
  simp only [Queue.getProcessedToday, Queue.countProcessedWithin, h]

/-- C4 counterexample to the claim as stated: for a process at UTC offset
+2h (`tz = 7200`), an item processed at `t = 80000` (01:13 local time of day
two, 23:13 UTC of day one) lies in the local day window of `now = 86400`
(00:00 UTC, 02:00 local) but not in the window the code uses, so the returned
count differs from the local-day count the claim describes. -/
theorem processedToday_local_counterexample :
    Queue.getProcessedToday [("a", ⟨0, true, some 80000, 1⟩)] 86400 ≠
      Queue.specProcessedTodayLocal [("a", ⟨0, true, some 80000, 1⟩)] 86400 7200 := by
  decide

/- ## Lost unprocessed items (C3) -/

/-- C3 (refuting the claim; the code loses such items): a path that is
already enqueued with `processed = false` — added by an earlier scan whose
channel send was dropped — is NOT sent to the worker channel by a subsequent
`Scan`, although the path is walked again, the file exists, the channel has
room and the daily budget is free: the walk skips it because `Contains` is
true, and `checkForReprocessItems` only receives items with
`processed = true`. The scan sends nothing. -/
theorem stuck_unprocessed_item_never_resent :
    (scanDirectories ["/w/a.nzb"] 1 50 3600 100000 (fun _ => true)
      ⟨[("/w/a.nzb", ⟨0, false, none, 0⟩)], [], []⟩).sent = [] := by
  decide

/- ## Quarantine destination (moveToFailedDirectory) -/

